import Mathlib

/-!
Verification of the json2toon core (`src/index.ts`): the TOON encoder
(`jsonToToon` and its helpers `escapeValue`, `isUniformArray`,
`convertUniformArray`, `convertNonUniformArray`, `convertArray`,
`convertObject`), the decoder (`toonToJson` / `parseObject`), and the
statistics functions (`estimateTokenCount`, `calculateStats`).

The embedding is a direct translation of the TypeScript source.  JavaScript
values are modelled by the inductive `JValue` (with an explicit `undefined`
constructor for JavaScript `undefined`); JavaScript numbers are modelled as
integers (every numeric value appearing in the repository's data paths that
the theorems below evaluate is a plain signed decimal integer, for which the
model is exact).  Strings are processed through their character lists so that
the JavaScript regular expressions and string methods used by the source can
be reproduced operation by operation.
-/

/-- The JavaScript value model: JSON values plus `undefined`. -/
inductive JValue where
  | null
  | undefined
  | bool (b : Bool)
  | num (n : Int)
  | str (s : String)
  | arr (elems : List JValue)
  | obj (fields : List (String × JValue))

/-- JavaScript whitespace (the class `\s`, also used by `trim`/`trimEnd`):
tab, LF, VT, FF, CR, space, NBSP, Ogham space, the ` `-` ` range,
LS, PS, NNBSP, MMSP, ideographic space and the BOM. -/
def jsIsWs (c : Char) : Bool :=
  let n := c.toNat
  n == 9 || n == 10 || n == 11 || n == 12 || n == 13 || n == 32 ||
  n == 160 || n == 5760 || (8192 ≤ n && n ≤ 8202) || n == 8232 ||
  n == 8233 || n == 8239 || n == 8287 || n == 12288 || n == 65279

/-- ASCII decimal digit (`\d` and the digit part of `\w`). -/
def isDigitB (c : Char) : Bool :=
  48 ≤ c.toNat && c.toNat ≤ 57

/-- JavaScript word character `\w` = `[A-Za-z0-9_]`. -/
def isWordB (c : Char) : Bool :=
  let n := c.toNat
  (48 ≤ n && n ≤ 57) || (65 ≤ n && n ≤ 90) || (97 ≤ n && n ≤ 122) || n == 95

/-- Hexadecimal digit, for JavaScript `0x` numeric literals. -/
def isHexDigitB (c : Char) : Bool :=
  let n := c.toNat
  (48 ≤ n && n ≤ 57) || (65 ≤ n && n ≤ 70) || (97 ≤ n && n ≤ 102)

/-- One of the structural characters `{ } [ ] : ,` counted by the token
estimator (the regex `[{}[\]:,]`). -/
def isStructuralB (c : Char) : Bool :=
  c == '{' || c == '}' || c == '[' || c == ']' || c == ':' || c == ','

/-- Drop leading JavaScript whitespace (`trimStart`). -/
def trimStartChars (cs : List Char) : List Char :=
  cs.dropWhile jsIsWs

/-- Drop trailing JavaScript whitespace (`trimEnd`). -/
def trimEndChars (cs : List Char) : List Char :=
  (cs.reverse.dropWhile jsIsWs).reverse

/-- JavaScript `String.prototype.trim`. -/
def trimChars (cs : List Char) : List Char :=
  trimEndChars (trimStartChars cs)

/-- JavaScript `s.trim()` on a `String`. -/
def jsTrim (s : String) : String :=
  String.mk (trimChars s.data)

/-- JavaScript `s.trimEnd()` on a `String`. -/
def jsTrimEnd (s : String) : String :=
  String.mk (trimEndChars s.data)

/-- `' '.repeat(n)`. -/
def spaces (n : Nat) : String :=
  String.mk (List.replicate n ' ')

/-- JavaScript `split('\n')`: the list of chunks between newline characters
(an empty final chunk when the text ends with a newline). -/
def splitOnNl : List Char → List (List Char)
  | [] => [[]]
  | c :: rest =>
    if c == '\n' then [] :: splitOnNl rest
    else
      match splitOnNl rest with
      | l :: ls => (c :: l) :: ls
      | [] => [[c]]

/-- JavaScript `split(',')`. -/
def splitOnComma : List Char → List (List Char)
  | [] => [[]]
  | c :: rest =>
    if c == ',' then [] :: splitOnComma rest
    else
      match splitOnComma rest with
      | l :: ls => (c :: l) :: ls
      | [] => [[c]]

/-- `line.match(/^ */)[0].length`: the number of leading space characters
(spaces only, exactly as in the source's indentation tracking). -/
def leadingSpaces (cs : List Char) : Nat :=
  (cs.takeWhile (fun c => c == ' ')).length

/-- `str.replace(/"/g, '""')`: double every double-quote character. -/
def doubleQuotes : List Char → List Char
  | [] => []
  | c :: rest => if c == '"' then '"' :: '"' :: doubleQuotes rest else c :: doubleQuotes rest

/-- `v.replace(/""/g, '"')`: collapse doubled quotes left to right,
non-overlapping, exactly as the JavaScript global replace does. -/
def collapseDoubles : List Char → List Char
  | [] => []
  | [c] => [c]
  | c :: d :: rest =>
    if c == '"' && d == '"' then '"' :: collapseDoubles rest
    else c :: collapseDoubles (d :: rest)

/-- `v.replace(/^"|"$/g, '')`: remove one leading and one trailing double
quote when present (for the one-character string `"` only the leading match
is consumed by the global replace). -/
def stripQuotes (cs : List Char) : List Char :=
  let cs1 := match cs with
    | c :: r => if c == '"' then r else cs
    | [] => cs
  match cs1.getLast? with
  | some c => if c == '"' then cs1.dropLast else cs1
  | none => cs1

/-- Split at the first `"` of the list: `splitAtQuote cs = some (inner, after)`
when `cs = inner ++ '"' :: after` with `inner` quote-free, `none` when the
list has no quote.  This is how the regex alternative `"[^"]*"` finds its
closing quote. -/
def splitAtQuote : List Char → Option (List Char × List Char)
  | [] => none
  | c :: rest =>
    if c == '"' then some ([], rest)
    else
      match splitAtQuote rest with
      | some (inner, after) => some (c :: inner, after)
      | none => none

/-- One pass of `row.match(/("[^"]*"|[^,]+)/g)`: the global scan tries, at
each position, a quoted span `"[^"]*"` first and otherwise a maximal nonempty
comma-free run, advancing one character when neither alternative matches.
`fuel` only bounds the recursion; `fuel = cs.length` always suffices because
every step consumes at least one character. -/
def regexCellsF : Nat → List Char → List (List Char)
  | _, [] => []
  | 0, _ :: _ => []
  | fuel + 1, c :: rest =>
    if c == '"' then
      match splitAtQuote rest with
      | some (inner, after) => ('"' :: (inner ++ ['"'])) :: regexCellsF fuel after
      | none =>
        let tok := (c :: rest).takeWhile (fun d => !(d == ','))
        let r := (c :: rest).dropWhile (fun d => !(d == ','))
        tok :: regexCellsF fuel r
    else if c == ',' then regexCellsF fuel rest
    else
      let tok := (c :: rest).takeWhile (fun d => !(d == ','))
      let r := (c :: rest).dropWhile (fun d => !(d == ','))
      tok :: regexCellsF fuel r

/-- The cell values of one tabular row:
`row.match(/("[^"]*"|[^,]+)/g)?.map(v => v.replace(/^"|"$/g, '').replace(/""/g, '"')) || []`. -/
def cellSplit (row : String) : List String :=
  (regexCellsF row.data.length row.data).map
    (fun cs => String.mk (collapseDoubles (stripQuotes cs)))

/-! ## Decimal printing and parsing of integers

JavaScript `Number.prototype.toString` prints an integral double as its plain
signed decimal digits, and `Number(s)` parses decimal (and radix) literals.
Both directions are implemented from scratch so that the round trip can be
proved.  `fuel` in the digit printer only bounds the recursion; `n` itself
always suffices since the argument is divided by ten at each step. -/

/-- The ASCII digit character for `d < 10`. -/
def digitChar10 (d : Nat) : Char :=
  Char.ofNat (48 + d)

/-- The decimal digits of `n`, least significant first. -/
def natToDigitsRevF : Nat → Nat → List Char
  | 0, _ => []
  | fuel + 1, n =>
    if n < 10 then [digitChar10 n]
    else digitChar10 (n % 10) :: natToDigitsRevF fuel (n / 10)

/-- `n.toString()` for a nonnegative integral JavaScript number. -/
def natToString (n : Nat) : String :=
  String.mk (natToDigitsRevF (n + 1) n).reverse

/-- `n.toString()` for an integral JavaScript number. -/
def intToString (n : Int) : String :=
  if n < 0 then "-" ++ natToString n.natAbs else natToString n.natAbs

/-- Fold a list of ASCII digits, most significant first, into the number it
denotes. -/
def digitsToNat (cs : List Char) : Nat :=
  cs.foldl (fun a c => 10 * a + (c.toNat - 48)) 0

/-- Fold hexadecimal digits into the number they denote. -/
def hexDigitsToNat (cs : List Char) : Nat :=
  cs.foldl
    (fun a c =>
      let n := c.toNat
      16 * a + (if 97 ≤ n then n - 87 else if 65 ≤ n then n - 55 else n - 48)) 0

/-! ## `Number(s)`: which strings are numeric, and their values

`toonToJson` coerces a token to a number when
`!isNaN(Number(val)) && val.trim() !== ''`.  `Number` trims JavaScript
whitespace and then accepts: the empty remainder (value 0), `Infinity` with
optional sign, a signed decimal literal (`digits [. digits] [exponent]` or
`. digits [exponent]`), or an unsigned radix literal (`0x`/`0o`/`0b`).
Anything else is `NaN`. -/

/-- `[eE][+-]?digits` or nothing: the optional exponent tail of a decimal
literal. -/
def expOk : List Char → Bool
  | [] => true
  | e :: r =>
    (e == 'e' || e == 'E') &&
    (match r with
     | '+' :: r2 => !r2.isEmpty && r2.all isDigitB
     | '-' :: r2 => !r2.isEmpty && r2.all isDigitB
     | r2 => !r2.isEmpty && r2.all isDigitB)

/-- An unsigned decimal literal: `digits ['.' digits] [exp]` or `'.' digits [exp]`. -/
def decimalLit (cs : List Char) : Bool :=
  let ds := cs.takeWhile isDigitB
  let r1 := cs.dropWhile isDigitB
  if ds.isEmpty then
    match r1 with
    | d :: r2 =>
      d == '.' &&
      (let ds2 := r2.takeWhile isDigitB
       let r3 := r2.dropWhile isDigitB
       !ds2.isEmpty && expOk r3)
    | [] => false
  else
    match r1 with
    | [] => true
    | d :: r2 => if d == '.' then expOk (r2.dropWhile isDigitB) else expOk r1

/-- An unsigned decimal literal or the literal `Infinity`. -/
def decOrInf (cs : List Char) : Bool :=
  cs == ['I', 'n', 'f', 'i', 'n', 'i', 't', 'y'] || decimalLit cs

/-- An unsigned radix literal `0x…`, `0o…` or `0b…` (no sign allowed). -/
def isRadixLiteral : List Char → Bool
  | c0 :: x :: r =>
    c0 == '0' &&
    (((x == 'x' || x == 'X') && !r.isEmpty && r.all isHexDigitB) ||
     ((x == 'o' || x == 'O') && !r.isEmpty && r.all (fun c => 48 ≤ c.toNat && c.toNat ≤ 55)) ||
     ((x == 'b' || x == 'B') && !r.isEmpty && r.all (fun c => c == '0' || c == '1')))
  | _ => false

/-- Whether `Number(<trimmed text>)` is not `NaN` (for a nonempty remainder;
the empty string yields 0 and is handled by the caller's `trim` guard). -/
def jsIsNumericCore (cs : List Char) : Bool :=
  match cs with
  | [] => true
  | c :: r =>
    if c == '+' || c == '-' then decOrInf r
    else isRadixLiteral cs || decOrInf cs

/-- `!isNaN(Number(s))`. -/
def jsIsNumeric (s : String) : Bool :=
  jsIsNumericCore (trimChars s.data)

/-- The exact value of an unsigned radix literal (`0x…`, `0o…`, `0b…`); 0 on
any other list (see `jsNumValue`). -/
def jsRadixValue : List Char → Int
  | c0 :: x :: r =>
    if c0 == '0' then
      if x == 'x' || x == 'X' then (hexDigitsToNat r : Int)
      else if x == 'o' || x == 'O' then
        (r.foldl (fun a c => 8 * a + (c.toNat - 48)) 0 : Int)
      else if x == 'b' || x == 'B' then
        (r.foldl (fun a c => 2 * a + (c.toNat - 48)) 0 : Int)
      else 0
    else 0
  | _ => 0

/-- The value of `Number(s)` as an integer.  Signed decimal-digit strings and
radix literals are computed exactly; every token that the source's data paths
coerce in the scenarios proved below is of that shape.  Fractional,
exponential and `Infinity` forms denote non-integral doubles outside the
integer carrier of this model and are mapped to 0. -/
def jsNumValue (s : String) : Int :=
  match trimChars s.data with
  | [] => 0
  | c :: r =>
    if c == '-' then
      if !r.isEmpty && r.all isDigitB then -(digitsToNat r : Int) else 0
    else if c == '+' then
      if !r.isEmpty && r.all isDigitB then (digitsToNat r : Int) else 0
    else if (c :: r).all isDigitB then (digitsToNat (c :: r) : Int)
    else jsRadixValue (c :: r)

/-- The guard `!isNaN(Number(val)) && val.trim() !== ''` of the decoder's
number coercion. -/
def numericCoerce (s : String) : Bool :=
  jsIsNumeric s && !(trimChars s.data).isEmpty

/-! ## The scalar codec -/

/-- `escapeValue` (`src/index.ts`): stringify a scalar, wrapping a string in
double quotes and doubling its quotes when it contains a comma, a newline or
a double quote.  The source never reaches this function with an array or an
object (its callers branch on those first); those cases return `""` here. -/
def escapeValue : JValue → String
  | .null => "null"
  | .undefined => "undefined"
  | .bool b => if b then "true" else "false"
  | .num n => intToString n
  | .str s =>
    if s.data.contains ',' || s.data.contains '\n' || s.data.contains '"' then
      String.mk ('"' :: doubleQuotes s.data ++ ['"'])
    else s
  | .arr _ => ""
  | .obj _ => ""

/-- The scalar coercion shared verbatim by the decoder's tabular-cell and
key-value branches: the literal `null`, then `true`/`false`, then the
number guard, else the raw string. -/
def coerceScalar (val : String) : JValue :=
  if val == "null" then .null
  else if val == "true" then .bool true
  else if val == "false" then .bool false
  else if numericCoerce val then .num (jsNumValue val)
  else .str val

/-! ## Objects, uniformity and options -/

/-- `Object.keys` of a value; the source only applies it to plain objects. -/
def jsObjKeys : JValue → List String
  | .obj fs => fs.map (fun p => p.1)
  | _ => []

/-- JavaScript property read `item[k]`: the value of the first matching key
(JavaScript objects cannot repeat keys), `undefined` when absent or when the
receiver is not an object. -/
def jsGet (v : JValue) (k : String) : JValue :=
  match v with
  | .obj fs =>
    match fs.find? (fun p => p.1 == k) with
    | some p => p.2
    | none => .undefined
  | _ => .undefined

/-- `typeof item === 'object' && item !== null && !Array.isArray(item)`. -/
def isPlainObjB : JValue → Bool
  | .obj _ => true
  | _ => false

/-- `Array.isArray(x) || (typeof x === 'object' && x !== null)`: an array or
a plain object (the disqualifying "complex" cell values of
`convertUniformArray`). -/
def isComplexB : JValue → Bool
  | .arr _ => true
  | .obj _ => true
  | _ => false

/-- Lexicographic comparison of character sequences, the default string
ordering of `Array.prototype.sort` (code-by-code comparison). -/
def charListLe : List Char → List Char → Bool
  | [], _ => true
  | _ :: _, [] => false
  | a :: as, b :: bs =>
    if a.toNat < b.toNat then true
    else if b.toNat < a.toNat then false
    else charListLe as bs

/-- `s <= t` in the string ordering used by `sort()`. -/
def strLeB (s t : String) : Bool :=
  charListLe s.data t.data

/-- Stable insertion of a string into a sorted list, modelling one step of
`Array.prototype.sort`'s default lexicographic comparison. -/
def insSorted (s : String) : List String → List String
  | [] => [s]
  | t :: ts => if strLeB s t then s :: t :: ts else t :: insSorted s ts

/-- `keys.sort()`: stable lexicographic sort (insertion sort; the comparison
is on character sequences, which agrees with JavaScript's UTF-16 code-unit
comparison on all keys appearing in this development). -/
def sortStrings : List String → List String
  | [] => []
  | s :: ss => insSorted s (sortStrings ss)

/-- `keys.join(',')`. -/
def joinComma : List String → String
  | [] => ""
  | [s] => s
  | s :: rest => s ++ "," ++ joinComma rest

/-- `lines.join('\n')`. -/
def joinNl : List String → String
  | [] => ""
  | [s] => s
  | s :: rest => s ++ "\n" ++ joinNl rest

/-- `isUniformArray` (`src/index.ts`): nonempty, every element a plain
object, and every element's sorted joined key list equal to the first
element's. -/
def isUniformArray (arr : List JValue) : Bool :=
  match arr with
  | [] => false
  | a :: _ =>
    arr.all isPlainObjB &&
    (let firstKeys := joinComma (sortStrings (jsObjKeys a))
     arr.all (fun item => joinComma (sortStrings (jsObjKeys item)) == firstKeys))

/-- `ToonOptions` with the defaults of `jsonToToon`.  `indent = 0` models
both an absent option and an explicit 0; the source reads the option as
`options.indent || 2`, so both fall back to 2. -/
structure ToonOptions where
  indent : Nat := 2
  sortKeys : Bool := false
  includeStats : Bool := false

/-- The default options of `jsonToToon`. -/
def defaultOptions : ToonOptions :=
  ToonOptions.mk 2 false false

/-- `options.indent || 2`. -/
def indentStep (o : ToonOptions) : Nat :=
  if o.indent == 0 then 2 else o.indent

/-! ## The encoder

`convertObject`, `convertArray`, `convertUniformArray` and
`convertNonUniformArray` recurse into each other; the recursion is organised
as a single structurally fuel-indexed interpreter `encodeRun` over a task
type, with one named wrapper per source function.  Each wrapper consumes one
unit of fuel per call, so any fuel larger than a few times the nesting depth
of the value reproduces the source exactly; `jsonToToon` computes such a
fuel from the value. -/

/-- One pending call of the encoder's four mutually recursive functions. -/
inductive EncTask where
  | object (v : JValue) (indent : Nat)
  | array (key : String) (arr : List JValue) (indent : Nat)
  | uniform (key : String) (arr : List JValue) (indent : Nat)
  | nonUniform (key : String) (arr : List JValue) (indent : Nat)

/-- The encoder proper; see `convertObject`, `convertArray`,
`convertUniformArray`, `convertNonUniformArray` for the correspondence with
the source. -/
def encodeRun (o : ToonOptions) : Nat → EncTask → String
  | 0, _ => ""
  | fuel + 1, task =>
    match task with
    | .object v indent =>
      let fields := match v with
        | .obj fs => fs
        | _ => []
      let keys0 := fields.map (fun p => p.1)
      let keys := if o.sortKeys then sortStrings keys0 else keys0
      let indentStr := spaces indent
      let body := keys.foldl
        (fun res key =>
          match jsGet v key with
          | .arr elems =>
            res ++ indentStr ++ encodeRun o fuel (.array key elems (indent + indentStep o)) ++ "\n"
          | .obj fs =>
            res ++ indentStr ++ key ++ ":\n" ++
              encodeRun o fuel (.object (.obj fs) (indent + indentStep o)) ++ "\n"
          | value =>
            res ++ indentStr ++ key ++ ": " ++ escapeValue value ++ "\n")
        ""
      jsTrimEnd body
    | .array key arr indent =>
      if arr.isEmpty then key ++ "[0]\x7b\x7d:"
      else if isUniformArray arr then encodeRun o fuel (.uniform key arr indent)
      else encodeRun o fuel (.nonUniform key arr indent)
    | .uniform key arr indent =>
      let keys0 := jsObjKeys (arr.headD .null)
      let keys := if o.sortKeys then sortStrings keys0 else keys0
      let hasComplexValues :=
        arr.any (fun item => keys.any (fun k => isComplexB (jsGet item k)))
      if hasComplexValues then encodeRun o fuel (.nonUniform key arr indent)
      else
        let indentStr := spaces indent
        let header := key ++ "[" ++ natToString arr.length ++ "]\x7b" ++ joinComma keys ++ "\x7d:\n"
        let body := arr.foldl
          (fun res item =>
            res ++ indentStr ++ joinComma (keys.map (fun k => escapeValue (jsGet item k))) ++ "\n")
          header
        jsTrimEnd body
    | .nonUniform key arr indent =>
      let indentStr := spaces indent
      let header := key ++ "[" ++ natToString arr.length ++ "]:\n"
      let body := (arr.enum.foldl
        (fun res iv =>
          match iv with
          | (i, value) =>
            match value with
            | .obj fs =>
              res ++
                joinNl (((splitOnNl (encodeRun o fuel (.object (.obj fs) indent)).data).map
                  (fun l => indentStr ++ String.mk l))) ++ "\n"
            | .arr elems =>
              res ++ indentStr ++
                encodeRun o fuel (.array ("[" ++ natToString i ++ "]") elems (indent + indentStep o)) ++ "\n"
            | _ => res ++ indentStr ++ escapeValue value ++ "\n")
        header)
      jsTrimEnd body

/-- `convertObject(obj, indent, options)` at the given fuel. -/
def convertObject (fuel : Nat) (v : JValue) (indent : Nat) (o : ToonOptions) : String :=
  encodeRun o fuel (.object v indent)

/-- `convertArray(key, arr, indent, options)` at the given fuel. -/
def convertArray (fuel : Nat) (key : String) (arr : List JValue) (indent : Nat)
    (o : ToonOptions) : String :=
  encodeRun o fuel (.array key arr indent)

/-- `convertUniformArray(key, arr, indent, options)` at the given fuel. -/
def convertUniformArray (fuel : Nat) (key : String) (arr : List JValue) (indent : Nat)
    (o : ToonOptions) : String :=
  encodeRun o fuel (.uniform key arr indent)

/-- `convertNonUniformArray(key, arr, indent, options)` at the given fuel. -/
def convertNonUniformArray (fuel : Nat) (key : String) (arr : List JValue) (indent : Nat)
    (o : ToonOptions) : String :=
  encodeRun o fuel (.nonUniform key arr indent)

mutual

/-- Nesting depth of a value, used to compute a sufficient encoder fuel. -/
def jvDepth : JValue → Nat
  | .arr elems => 1 + jvDepthList elems
  | .obj fields => 1 + jvDepthFields fields
  | _ => 0

/-- Nesting depth of the elements of an array. -/
def jvDepthList : List JValue → Nat
  | [] => 0
  | v :: vs => max (jvDepth v) (jvDepthList vs)

/-- Nesting depth of the values of an object. -/
def jvDepthFields : List (String × JValue) → Nat
  | [] => 0
  | f :: fs => max (jvDepth f.2) (jvDepthFields fs)

end

/-- `jsonToToon(json, options)` restricted to its TOON text result: a
top-level array is rendered under the synthetic key `root`, an object by
`convertObject`, anything else by `escapeValue`.  (The source's JSON-string
input form and its optional statistics wrapper sit outside the conversion
itself; the statistics function `calculateStats` is modelled separately.) -/
def jsonToToon (json : JValue) (options : ToonOptions) : String :=
  let fuel := 4 * jvDepth json + 8
  match json with
  | .arr elems => convertArray fuel "root" elems 0 options
  | .obj fs => convertObject fuel (.obj fs) 0 options
  | v => escapeValue v

/-! ## The statistics functions -/

/-- `text.replace(/\s+/g, ' ')`: each maximal run of whitespace becomes a
single space.  The `Bool` argument records whether the previous character was
whitespace (in which case the current run's space has already been
emitted). -/
def normalizeWsAux : Bool → List Char → List Char
  | _, [] => []
  | prevWs, c :: rest =>
    if jsIsWs c then
      if prevWs then normalizeWsAux true rest
      else ' ' :: normalizeWsAux true rest
    else c :: normalizeWsAux false rest

/-- `text.replace(/\s+/g, ' ')`. -/
def normalizeWs (cs : List Char) : List Char :=
  normalizeWsAux false cs

/-- `estimateTokenCount` (`src/index.ts`): `Math.ceil` of a quarter of the
whitespace-normalized character count, plus `Math.ceil(0.3 × s)` where `s`
counts the structural characters of the original text.  `0.3` is the exact
rational 3/10 here; the double-precision product the source computes rounds
to the same ceiling for every text whose structural count is far below 2⁵². -/
def estimateTokenCount (text : String) : Nat :=
  let withoutExtraSpaces := normalizeWs text.data
  let charCount := withoutExtraSpaces.length
  let estimatedTokens := Nat.ceil ((charCount : ℚ) / 4)
  let structuralChars := (text.data.filter isStructuralB).length
  estimatedTokens + Nat.ceil ((structuralChars : ℚ) * 3 / 10)

/-- `Math.round(x)`: round half toward positive infinity. -/
def jsRound (q : ℚ) : Int :=
  ⌊q + 1 / 2⌋

/-- `ConversionStats`.  The two ratio fields are `Option ℚ`: `none` models
the NaN or signed infinity that JavaScript's division produces when the
denominator is 0, `some q` the (exact-arithmetic) finite result. -/
structure ConversionStats where
  jsonTokenCount : Nat
  toonTokenCount : Nat
  tokensSaved : Int
  percentageSaved : Option ℚ
  jsonSize : Nat
  toonSize : Nat
  compressionRatio : Option ℚ

/-- `calculateStats(jsonStr, toonStr)` (`src/index.ts`): token counts via
`estimateTokenCount`, their difference, the percentage saved rounded to two
decimals by `Math.round(x*100)/100`, the two lengths, and the size ratio
rounded to three decimals.  The source divides without guarding the zero
denominators. -/
def calculateStats (jsonStr toonStr : String) : ConversionStats :=
  let jsonTokenCount := estimateTokenCount jsonStr
  let toonTokenCount := estimateTokenCount toonStr
  let tokensSaved : Int := (jsonTokenCount : Int) - (toonTokenCount : Int)
  let percentageSaved : Option ℚ :=
    if jsonTokenCount == 0 then none
    else some ((jsRound (((tokensSaved : ℚ) / (jsonTokenCount : ℚ) * 100) * 100) : ℚ) / 100)
  let jsonSize := jsonStr.data.length
  let toonSize := toonStr.data.length
  let compressionRatio : Option ℚ :=
    if jsonSize == 0 then none
    else some ((jsRound (((toonSize : ℚ) / (jsonSize : ℚ)) * 1000) : ℚ) / 1000)
  ConversionStats.mk jsonTokenCount toonTokenCount tokensSaved percentageSaved
    jsonSize toonSize compressionRatio

/-! ## The decoder -/

/-- JavaScript property assignment `obj[key] = value` on the ordered field
list: overwrite in place when the key exists, append otherwise. -/
def setField (fs : List (String × JValue)) (k : String) (v : JValue) :
    List (String × JValue) :=
  if fs.any (fun p => p.1 == k) then
    fs.map (fun p => if p.1 == k then (k, v) else p)
  else fs ++ [(k, v)]

/-- `line.match(/^(\w+)\[(\d+)\]{([^}]*)}:/)`: key, element count and the raw
column text.  The pattern is anchored only at the start; trailing characters
after the colon are ignored. -/
def tabularMatch (cs : List Char) : Option (String × Nat × List Char) :=
  let w := cs.takeWhile isWordB
  let r1 := cs.dropWhile isWordB
  if w.isEmpty then none
  else
    match r1 with
    | '[' :: r2 =>
      let ds := r2.takeWhile isDigitB
      let r3 := r2.dropWhile isDigitB
      if ds.isEmpty then none
      else
        match r3 with
        | ']' :: '{' :: r4 =>
          let inner := r4.takeWhile (fun c => !(c == '}'))
          let r5 := r4.dropWhile (fun c => !(c == '}'))
          match r5 with
          | '}' :: ':' :: _ => some (String.mk w, digitsToNat ds, inner)
          | _ => none
        | _ => none
    | _ => none

/-- `line.match(/^(\w+)\[(\d+)\]:/)`: key and element count of a generic
array header. -/
def arrayMatch (cs : List Char) : Option (String × Nat) :=
  let w := cs.takeWhile isWordB
  let r1 := cs.dropWhile isWordB
  if w.isEmpty then none
  else
    match r1 with
    | '[' :: r2 =>
      let ds := r2.takeWhile isDigitB
      let r3 := r2.dropWhile isDigitB
      if ds.isEmpty then none
      else
        match r3 with
        | ']' :: ':' :: _ => some (String.mk w, digitsToNat ds)
        | _ => none
    | _ => none

/-- `line.match(/^(\w+):$/)`: a nested-object header, anchored at both ends. -/
def nestedMatch (cs : List Char) : Option String :=
  let w := cs.takeWhile isWordB
  let r1 := cs.dropWhile isWordB
  if w.isEmpty then none
  else
    match r1 with
    | [':'] => some (String.mk w)
    | _ => none

/-- `line.match(/^(\w+): (.+)$/)`: key and the raw value text (everything
after the first `": "`). -/
def kvMatch (cs : List Char) : Option (String × String) :=
  let w := cs.takeWhile isWordB
  let r1 := cs.dropWhile isWordB
  if w.isEmpty then none
  else
    match r1 with
    | ':' :: ' ' :: rest =>
      if rest.isEmpty then none else some (String.mk w, String.mk rest)
    | _ => none

/-- `arrLine.match(/^\w+:/)`: does the trimmed element line start a nested
object ("bare key:" prefix)? -/
def wordColonTest (cs : List Char) : Bool :=
  let w := cs.takeWhile isWordB
  let r1 := cs.dropWhile isWordB
  !w.isEmpty &&
    (match r1 with
     | ':' :: _ => true
     | _ => false)

/-- The tabular-row loop of `toonToJson`: for up to `count` rows while lines
remain, skip blank rows, split the row into cells, and build one object per
row by assigning each declared column the coerced cell value (`undefined`
when the row is short).  Returns the rows and the final cursor. -/
def parseTabular (lines : List (List Char)) (columns : List String) :
    Nat → Nat → List JValue → List JValue × Nat
  | 0, idx, acc => (acc, idx)
  | count + 1, idx, acc =>
    match lines.get? idx with
    | none => (acc, idx)
    | some line =>
      let row := trimChars line
      if row.isEmpty then parseTabular lines columns count (idx + 1) acc
      else
        let values := cellSplit (String.mk row)
        let item := (columns.enum.foldl
          (fun it cj =>
            match cj with
            | (j, col) =>
              match values.get? j with
              | none => setField it col .undefined
              | some v => setField it col (coerceScalar v))
          [])
        parseTabular lines columns count (idx + 1) (acc ++ [JValue.obj item])

/-- The generic-array loop of `toonToJson`: for up to `count` elements while
lines remain, skip blank lines; a line matching `^\w+:` rewinds the cursor by
one and delegates to the object parser (`parseObj`, the enclosing
`parseObject` at indentation `currentIndent + 2`), whose result cursor is
then advanced by the loop update; any other line contributes `null` for the
literal `null` and the raw trimmed text otherwise. -/
def parseGenericAux (lines : List (List Char))
    (parseObj : Nat → List (String × JValue) × Nat) :
    Nat → Nat → List JValue → List JValue × Nat
  | 0, idx, acc => (acc, idx)
  | count + 1, idx, acc =>
    match lines.get? idx with
    | none => (acc, idx)
    | some line =>
      let arrLine := trimChars line
      if arrLine.isEmpty then parseGenericAux lines parseObj count (idx + 1) acc
      else if wordColonTest arrLine then
        let r := parseObj (idx - 1)
        parseGenericAux lines parseObj count (r.2 + 1) (acc ++ [JValue.obj r.1])
      else
        let v := if arrLine == ['n', 'u', 'l', 'l'] then JValue.null
                 else JValue.str (String.mk arrLine)
        parseGenericAux lines parseObj count (idx + 1) (acc ++ [v])

/-- The `parseObject` loop of `toonToJson`.  One unit of fuel is consumed per
loop iteration and per recursive call, so any fuel beyond the square of the
line count reproduces the source; `toonToJson` supplies such a fuel.  At each
line: blank lines are skipped; a line indented less than the expected
indentation ends the block; otherwise the four anchored patterns are tried in
order (tabular array, generic array, nested object, key-value) and a line
matching none of them is skipped. -/
def parseObject (lines : List (List Char)) :
    Nat → Nat → Nat → List (String × JValue) → List (String × JValue) × Nat
  | 0, _, idx, acc => (acc, idx)
  | fuel + 1, indent, idx, acc =>
    match lines.get? idx with
    | none => (acc, idx)
    | some line =>
      if (trimChars line).isEmpty then parseObject lines fuel indent (idx + 1) acc
      else
        let currentIndent := leadingSpaces line
        if currentIndent < indent then (acc, idx)
        else
          match tabularMatch line with
          | some kcc =>
            match kcc with
            | (key, count, colsRaw) =>
              let columns := (splitOnComma colsRaw).map (fun c => String.mk (trimChars c))
              let r := parseTabular lines columns count (idx + 1) []
              parseObject lines fuel indent r.2 (setField acc key (JValue.arr r.1))
          | none =>
            match arrayMatch line with
            | some kc =>
              let r := parseGenericAux lines
                (fun j => parseObject lines fuel (currentIndent + 2) j []) kc.2 (idx + 1) []
              parseObject lines fuel indent r.2 (setField acc kc.1 (JValue.arr r.1))
            | none =>
              match nestedMatch line with
              | some key =>
                let r := parseObject lines fuel (currentIndent + 2) (idx + 1) []
                parseObject lines fuel indent r.2 (setField acc key (JValue.obj r.1))
              | none =>
                match kvMatch line with
                | some kv =>
                  parseObject lines fuel indent (idx + 1)
                    (setField acc kv.1 (coerceScalar kv.2))
                | none => parseObject lines fuel indent (idx + 1) acc

/-- The lines of the decoder's input: `toon.split(/\r?\n/).map(l => l.trimEnd())`
(splitting on `\n` and end-trimming each piece removes the optional `\r`). -/
def toonLines (toon : String) : List (List Char) :=
  (splitOnNl toon.data).map trimEndChars

/-- `toonToJson(toon)` (`src/index.ts`): split into end-trimmed lines and run
`parseObject` from the first line at indentation 0.  The result is always a
plain object; no input makes the source throw. -/
def toonToJson (toon : String) : JValue :=
  let lines := toonLines toon
  JValue.obj (parseObject lines ((lines.length + 2) * (lines.length + 2)) 0 0 []).1

/-! ## Predicates used by the theorems -/

/-- The scalars whose `escapeValue`/key-value-parse round trip can succeed:
`null`, booleans, (integral) numbers, and strings whose raw text is not a
`null`/`true`/`false` literal, is not coerced to a number, and needs no
quoting (no comma, no newline, no double quote).  `undefined`, arrays and
objects are excluded. -/
def scalarRoundTrippable : JValue → Bool
  | .null => true
  | .bool _ => true
  | .num _ => true
  | .str s =>
    !(s == "null") && !(s == "true") && !(s == "false") && !(numericCoerce s) &&
    !(s.data.contains ',') && !(s.data.contains '\n') && !(s.data.contains '"')
  | _ => false

/-- A line on which all four of the decoder's anchored patterns fail. -/
def lineUnmatched (cs : List Char) : Bool :=
  (tabularMatch cs).isNone && (arrayMatch cs).isNone &&
  (nestedMatch cs).isNone && (kvMatch cs).isNone

/-- A text none of whose lines matches any of the decoder's patterns. -/
def allLinesUnmatched (t : String) : Bool :=
  (toonLines t).all lineUnmatched

/-! ## Basic lemmas about the character-list utilities -/

theorem takeWhile_all {p : Char → Bool} :
    ∀ {cs : List Char}, (∀ c ∈ cs, p c = true) → cs.takeWhile p = cs
  | [], _ => rfl
  | c :: cs, h => by
    rw [List.takeWhile_cons_of_pos (h c (List.mem_cons_self c cs))]
    rw [takeWhile_all (fun d hd => h d (List.mem_cons_of_mem c hd))]

theorem dropWhile_all {p : Char → Bool} :
    ∀ {cs : List Char}, (∀ c ∈ cs, p c = true) → cs.dropWhile p = []
  | [], _ => rfl
  | c :: cs, h => by
    rw [List.dropWhile_cons_of_pos (h c (List.mem_cons_self c cs))]
    exact dropWhile_all (fun d hd => h d (List.mem_cons_of_mem c hd))

theorem dropWhile_none {p : Char → Bool} {cs : List Char}
    (h : ∀ c ∈ cs, p c = false) : cs.dropWhile p = cs := by
  cases cs with
  | nil => rfl
  | cons c cs =>
    rw [List.dropWhile_cons_of_neg]
    simp [h c (List.mem_cons_self c cs)]

theorem trimChars_id {cs : List Char} (h : ∀ c ∈ cs, jsIsWs c = false) :
    trimChars cs = cs := by
  unfold trimChars trimStartChars trimEndChars
  rw [dropWhile_none h]
  rw [dropWhile_none (fun c hc => h c (List.mem_reverse.mp hc))]
  exact List.reverse_reverse cs

/-! ## Decimal digits: facts and the round trip -/

theorem digitChar10_toNat {d : Nat} (h : d < 10) : (digitChar10 d).toNat = 48 + d := by
  interval_cases d <;> rfl

theorem isDigitB_digitChar10 {d : Nat} (h : d < 10) : isDigitB (digitChar10 d) = true := by
  interval_cases d <;> rfl

theorem natToDigits_all_digit :
    ∀ fuel n, ∀ c ∈ natToDigitsRevF fuel n, isDigitB c = true := by
  intro fuel
  induction fuel with
  | zero => intro n c hc; simp [natToDigitsRevF] at hc
  | succ fuel ih =>
    intro n c hc
    rw [natToDigitsRevF] at hc
    by_cases hn : n < 10
    · rw [if_pos hn] at hc
      simp at hc
      subst hc
      exact isDigitB_digitChar10 hn
    · rw [if_neg hn] at hc
      rcases List.mem_cons.mp hc with h | h
      · subst h; exact isDigitB_digitChar10 (Nat.mod_lt n (by omega))
      · exact ih (n / 10) c h

theorem natToDigits_ne_nil (fuel n : Nat) : natToDigitsRevF (fuel + 1) n ≠ [] := by
  rw [natToDigitsRevF]
  by_cases hn : n < 10
  · rw [if_pos hn]; simp
  · rw [if_neg hn]; simp

theorem digitsToNat_append (xs : List Char) (c : Char) :
    digitsToNat (xs ++ [c]) = 10 * digitsToNat xs + (c.toNat - 48) := by
  simp [digitsToNat, List.foldl_append]

theorem digits_roundtrip :
    ∀ fuel n, n < fuel → digitsToNat (natToDigitsRevF fuel n).reverse = n := by
  intro fuel
  induction fuel with
  | zero => intro n h; omega
  | succ fuel ih =>
    intro n h
    rw [natToDigitsRevF]
    by_cases hn : n < 10
    · rw [if_pos hn]
      simp [digitsToNat, digitChar10_toNat hn]
    · rw [if_neg hn]
      rw [List.reverse_cons, digitsToNat_append]
      rw [ih (n / 10) (by omega)]
      rw [digitChar10_toNat (Nat.mod_lt n (by omega))]
      have := Nat.div_add_mod n 10
      omega

theorem data_mk (l : List Char) : (String.mk l).data = l := rfl

theorem natToString_all_digit (n : Nat) :
    ∀ c ∈ (natToString n).data, isDigitB c = true := by
  intro c hc
  rw [natToString, data_mk, List.mem_reverse] at hc
  exact natToDigits_all_digit (n + 1) n c hc

theorem natToString_ne_nil (n : Nat) : (natToString n).data ≠ [] := by
  rw [natToString, data_mk]
  intro h
  exact natToDigits_ne_nil n n (by simpa using h)

theorem digitsToNat_natToString (n : Nat) : digitsToNat (natToString n).data = n :=
  digits_roundtrip (n + 1) n (Nat.lt_succ_self n)

theorem intToString_data (n : Int) :
    (intToString n).data =
      if n < 0 then '-' :: (natToString n.natAbs).data else (natToString n.natAbs).data := by
  unfold intToString
  by_cases h : n < 0
  · rw [if_pos h, if_pos h]
    rfl
  · rw [if_neg h, if_neg h]

theorem jsIsWs_of_digit {c : Char} (h : isDigitB c = true) : jsIsWs c = false := by
  simp only [isDigitB, Bool.and_eq_true, decide_eq_true_eq] at h
  apply Bool.eq_false_iff.mpr
  intro h2
  simp only [jsIsWs, Bool.or_eq_true, beq_iff_eq, Bool.and_eq_true, decide_eq_true_eq] at h2
  omega

theorem jsIsWs_minus : jsIsWs '-' = false := rfl

theorem trim_intToString (n : Int) :
    trimChars (intToString n).data = (intToString n).data := by
  apply trimChars_id
  intro c hc
  rw [intToString_data] at hc
  by_cases h : n < 0
  · rw [if_pos h] at hc
    rcases List.mem_cons.mp hc with h1 | h1
    · subst h1; rfl
    · exact jsIsWs_of_digit (natToString_all_digit _ c h1)
  · rw [if_neg h] at hc
    exact jsIsWs_of_digit (natToString_all_digit _ c hc)

theorem intToString_head :
    ∀ n : Int, ∃ c r, (intToString n).data = c :: r ∧ (isDigitB c = true ∨ c = '-') := by
  intro n
  rw [intToString_data]
  by_cases h : n < 0
  · rw [if_pos h]
    exact ⟨'-', (natToString n.natAbs).data, rfl, Or.inr rfl⟩
  · rw [if_neg h]
    rcases hd : (natToString n.natAbs).data with _ | ⟨c, r⟩
    · exact absurd hd (natToString_ne_nil _)
    · refine ⟨c, r, rfl, Or.inl ?_⟩
      exact natToString_all_digit _ c (by rw [hd]; exact List.mem_cons_self c r)

theorem intToString_ne_lit (n : Int) (t : String) (c0 : Char) (r0 : List Char)
    (ht : t.data = c0 :: r0) (h1 : isDigitB c0 = false) (h2 : ¬ c0 = '-') :
    (intToString n == t) = false := by
  apply beq_eq_false_iff_ne.mpr
  intro he
  obtain ⟨c, r, hd, hc⟩ := intToString_head n
  rw [he, ht] at hd
  injection hd with h3 _
  subst h3
  rcases hc with hc | hc
  · rw [hc] at h1; cases h1
  · exact h2 hc

theorem intToString_beq_null (n : Int) : (intToString n == "null") = false :=
  intToString_ne_lit n "null" 'n' ['u', 'l', 'l'] rfl (by decide) (by decide)

theorem intToString_beq_true (n : Int) : (intToString n == "true") = false :=
  intToString_ne_lit n "true" 't' ['r', 'u', 'e'] rfl (by decide) (by decide)

theorem intToString_beq_false (n : Int) : (intToString n == "false") = false :=
  intToString_ne_lit n "false" 'f' ['a', 'l', 's', 'e'] rfl (by decide) (by decide)

theorem decimalLit_all_digit {cs : List Char} (h : cs ≠ [])
    (ha : ∀ c ∈ cs, isDigitB c = true) : decimalLit cs = true := by
  unfold decimalLit
  rw [takeWhile_all ha, dropWhile_all ha]
  cases cs with
  | nil => exact absurd rfl h
  | cons c r => simp

theorem decOrInf_all_digit {cs : List Char} (h : cs ≠ [])
    (ha : ∀ c ∈ cs, isDigitB c = true) : decOrInf cs = true := by
  unfold decOrInf
  rw [decimalLit_all_digit h ha]
  simp

theorem beq_false_of_digit {c : Char} (hc : isDigitB c = true) (d : Char)
    (hd : isDigitB d = false) : (c == d) = false := by
  apply beq_eq_false_iff_ne.mpr
  intro he
  rw [he, hd] at hc
  cases hc

theorem jsIsNumericCore_all_digit {cs : List Char} (h : cs ≠ [])
    (ha : ∀ c ∈ cs, isDigitB c = true) : jsIsNumericCore cs = true := by
  cases cs with
  | nil => exact absurd rfl h
  | cons c r =>
    rw [jsIsNumericCore]
    have hc := ha c (List.mem_cons_self c r)
    rw [beq_false_of_digit hc '+' (by decide), beq_false_of_digit hc '-' (by decide)]
    simp only [Bool.or_self, Bool.false_or, if_false]
    rw [decOrInf_all_digit h ha]
    simp

theorem jsIsNumericCore_minus_digits {r : List Char} (h : r ≠ [])
    (ha : ∀ c ∈ r, isDigitB c = true) : jsIsNumericCore ('-' :: r) = true := by
  rw [jsIsNumericCore]
  rw [if_pos (by decide)]
  exact decOrInf_all_digit h ha

theorem numericCoerce_intToString (n : Int) : numericCoerce (intToString n) = true := by
  unfold numericCoerce jsIsNumeric
  rw [trim_intToString, intToString_data]
  by_cases h : n < 0
  · rw [if_pos h]
    rw [jsIsNumericCore_minus_digits (natToString_ne_nil _) (natToString_all_digit _)]
    simp
  · rw [if_neg h]
    rw [jsIsNumericCore_all_digit (natToString_ne_nil _) (natToString_all_digit _)]
    simp [natToString_ne_nil n.natAbs]

theorem jsNumValue_intToString (n : Int) : jsNumValue (intToString n) = n := by
  unfold jsNumValue
  rw [trim_intToString, intToString_data]
  by_cases h : n < 0
  · rw [if_pos h]
    have hne : (natToString n.natAbs).data ≠ [] := natToString_ne_nil _
    have hall : (natToString n.natAbs).data.all isDigitB = true :=
      List.all_eq_true.mpr (natToString_all_digit _)
    simp only [show (('-' : Char) == '-') = true from rfl, if_true]
    rw [if_pos]
    · rw [digitsToNat_natToString]
      omega
    · simp [hall, hne]
  · rw [if_neg h]
    rcases hd : (natToString n.natAbs).data with _ | ⟨c, r⟩
    · exact absurd hd (natToString_ne_nil _)
    · have hc : isDigitB c = true :=
        natToString_all_digit _ c (by rw [hd]; exact List.mem_cons_self c r)
      have hall : (c :: r).all isDigitB = true := by
        rw [← hd]
        exact List.all_eq_true.mpr (natToString_all_digit _)
      simp only [beq_false_of_digit hc '-' (by decide),
        beq_false_of_digit hc '+' (by decide), Bool.false_eq_true, if_false]
      rw [if_pos hall]
      have : digitsToNat (c :: r) = n.natAbs := by
        rw [← hd, digitsToNat_natToString]
      rw [this]
      omega


theorem scalar_codec_roundtrip (v : JValue) (h : scalarRoundTrippable v = true) :
    coerceScalar (escapeValue v) = v := by
  cases v with
  | null => rfl
  | undefined => simp [scalarRoundTrippable] at h
  | bool b => cases b <;> rfl
  | num n =>
    show coerceScalar (intToString n) = JValue.num n
    unfold coerceScalar
    rw [intToString_beq_null, intToString_beq_true, intToString_beq_false,
        numericCoerce_intToString, jsNumValue_intToString]
    simp
  | str s =>
    simp only [scalarRoundTrippable, Bool.and_eq_true, Bool.not_eq_true'] at h
    obtain ⟨⟨⟨⟨⟨⟨h1, h2⟩, h3⟩, h4⟩, h5⟩, h6⟩, h7⟩ := h
    show coerceScalar (escapeValue (JValue.str s)) = JValue.str s
    simp only [List.contains, List.elem_eq_mem, decide_eq_false_iff_not] at h5 h6 h7
    have he : escapeValue (JValue.str s) = s := by
      simp [escapeValue, h5, h6, h7]
    rw [he]
    simp [coerceScalar, h1, h2, h3, h4]
  | arr es => simp [scalarRoundTrippable] at h
  | obj fs => simp [scalarRoundTrippable] at h

/-! ## Ceiling division -/

theorem ceilq_nat_div (n d : Nat) (hd : 0 < d) :
    Nat.ceil ((n : ℚ) / (d : ℚ)) = (n + d - 1) / d := by
  have hdq : (0 : ℚ) < (d : ℚ) := by exact_mod_cast hd
  apply le_antisymm
  · rw [Nat.ceil_le, div_le_iff₀ hdq]
    have h1 := Nat.div_add_mod (n + d - 1) d
    have h2 := Nat.mod_lt (n + d - 1) hd
    have h3 : n ≤ d * ((n + d - 1) / d) := by omega
    calc (n : ℚ) ≤ ((d * ((n + d - 1) / d) : Nat) : ℚ) := by exact_mod_cast h3
    _ = ((n + d - 1) / d : Nat) * (d : ℚ) := by push_cast; ring
  · rcases Nat.eq_zero_or_pos n with hn | hn
    · subst hn
      simp [Nat.div_eq_of_lt (by omega : d - 1 < d)]
    · have h1 := Nat.div_add_mod (n + d - 1) d
      have h2 := Nat.mod_lt (n + d - 1) hd
      have hk1 : 0 < (n + d - 1) / d := Nat.div_pos (by omega) hd
      have hmul : ((n + d - 1) / d - 1) * d = d * ((n + d - 1) / d) - d := by
        rw [Nat.sub_mul, one_mul, Nat.mul_comm]
      have hlt : ((n + d - 1) / d - 1) * d < n := by omega
      have hq : (((n + d - 1) / d - 1 : Nat) : ℚ) < (n : ℚ) / (d : ℚ) := by
        rw [lt_div_iff₀ hdq]
        exact_mod_cast hlt
      have hlt2 := Nat.lt_ceil.mpr hq
      omega

theorem estimateTokenCount_formula (s : String) :
    estimateTokenCount s =
      ((normalizeWs s.data).length + 3) / 4 +
      (3 * (s.data.filter isStructuralB).length + 9) / 10 := by
  unfold estimateTokenCount
  dsimp only
  have e : ((s.data.filter isStructuralB).length : ℚ) * 3 / 10 =
      ((3 * (s.data.filter isStructuralB).length : Nat) : ℚ) / ((10 : Nat) : ℚ) := by
    push_cast
    ring
  rw [e, ceilq_nat_div _ 10 (by omega)]
  have e4 : ((normalizeWs s.data).length : ℚ) / 4 =
      (((normalizeWs s.data).length : Nat) : ℚ) / ((4 : Nat) : ℚ) := by
    norm_num
  rw [e4, ceilq_nat_div _ 4 (by omega)]
  omega

/-! ## Quote-free strings and the tabular cell round trip -/

theorem doubleQuotes_id : ∀ {cs : List Char}, ¬ '"' ∈ cs → doubleQuotes cs = cs
  | [], _ => rfl
  | c :: rest, h => by
    rw [doubleQuotes]
    rw [if_neg]
    · rw [doubleQuotes_id (fun hm => h (List.mem_cons_of_mem c hm))]
    · simp only [beq_iff_eq]
      intro he
      exact h (he ▸ List.mem_cons_self c rest)

theorem collapseDoubles_id : ∀ {cs : List Char}, ¬ '"' ∈ cs → collapseDoubles cs = cs
  | [], _ => rfl
  | [c], _ => rfl
  | c :: d :: rest, h => by
    rw [collapseDoubles]
    rw [if_neg]
    · rw [collapseDoubles_id (fun hm => h (List.mem_cons_of_mem c hm))]
    · simp only [Bool.and_eq_true, beq_iff_eq]
      intro he
      exact h (he.1 ▸ List.mem_cons_self c (d :: rest))

theorem stripQuotes_quoted (cs : List Char) :
    stripQuotes ('"' :: (cs ++ ['"'])) = cs := by
  unfold stripQuotes
  simp only [beq_self_eq_true, if_true, List.getLast?_concat, List.dropLast_concat]

theorem beq_quote_false {c : Char} (h : ¬ c = '"') : (c == '"') = false :=
  beq_eq_false_iff_ne.mpr h

theorem stripQuotes_id {cs : List Char} (h : ¬ '"' ∈ cs) : stripQuotes cs = cs := by
  cases cs with
  | nil => rfl
  | cons c r =>
    have hc : (c == '"') = false :=
      beq_quote_false (fun he => h (he ▸ List.mem_cons_self c r))
    unfold stripQuotes
    simp only [hc, Bool.false_eq_true, if_false]
    cases hl : (c :: r).getLast? with
    | none => simp at hl
    | some d =>
      have hd : (d == '"') = false := by
        apply beq_quote_false
        intro he
        subst he
        exact h (List.mem_of_getLast?_eq_some hl)
      simp only [hd, Bool.false_eq_true, if_false]

theorem splitAtQuote_none : ∀ {cs : List Char}, ¬ '"' ∈ cs → splitAtQuote cs = none
  | [], _ => rfl
  | c :: rest, h => by
    have hc : (c == '"') = false :=
      beq_quote_false (fun he => h (he ▸ List.mem_cons_self c rest))
    rw [splitAtQuote]
    simp only [hc, Bool.false_eq_true, if_false]
    rw [splitAtQuote_none (fun hm => h (List.mem_cons_of_mem c hm))]

theorem splitAtQuote_append :
    ∀ {cs : List Char} (rest : List Char), ¬ '"' ∈ cs →
      splitAtQuote (cs ++ '"' :: rest) = some (cs, rest)
  | [], rest, _ => by
    rw [List.nil_append, splitAtQuote]
    simp
  | c :: cs, rest, h => by
    have hc : (c == '"') = false :=
      beq_quote_false (fun he => h (he ▸ List.mem_cons_self c cs))
    rw [List.cons_append, splitAtQuote]
    simp only [hc, Bool.false_eq_true, if_false]
    rw [splitAtQuote_append rest (fun hm => h (List.mem_cons_of_mem c hm))]

theorem string_mk_data (s : String) : String.mk s.data = s := rfl

theorem cellSplit_escape (s : String) (hq : ¬ '"' ∈ s.data) (hn : ¬ '\n' ∈ s.data)
    (hne : s.data ≠ []) : cellSplit (escapeValue (JValue.str s)) = [s] := by
  by_cases hc : ',' ∈ s.data
  · have hcond : (s.data.contains ',' || s.data.contains '\n' || s.data.contains '"') = true := by
      simp [hc]
    have he : escapeValue (JValue.str s) = String.mk ('"' :: (doubleQuotes s.data ++ ['"'])) := by
      simp only [escapeValue, hcond, if_true]
      rfl
    rw [he, doubleQuotes_id hq]
    unfold cellSplit
    rw [data_mk]
    have hlen : ('"' :: (s.data ++ ['"'])).length = s.data.length + 1 + 1 := by
      simp
    rw [hlen]
    rw [regexCellsF]
    simp only [beq_self_eq_true, if_true]
    have hsp : splitAtQuote (s.data ++ ['"']) = some (s.data, []) :=
      splitAtQuote_append [] hq
    rw [hsp]
    dsimp only
    have hnil : regexCellsF (s.data.length + 1) ([] : List Char) = [] := by
      rw [regexCellsF]
    rw [hnil]
    rw [List.map_cons, List.map_nil]
    rw [stripQuotes_quoted, collapseDoubles_id hq, string_mk_data]
  · have hcond : (s.data.contains ',' || s.data.contains '\n' || s.data.contains '"') = false := by
      simp [hc, hq, hn]
    have he : escapeValue (JValue.str s) = s := by
      simp only [escapeValue, hcond, Bool.false_eq_true, if_false]
    rw [he]
    unfold cellSplit
    rcases hd : s.data with _ | ⟨c, r⟩
    · exact absurd hd hne
    · have hc1 : (c == '"') = false :=
        beq_quote_false (fun heq => hq (by rw [hd, heq]; exact List.mem_cons_self _ _))
      have hc2 : (c == ',') = false := by
        apply beq_eq_false_iff_ne.mpr
        intro heq
        exact hc (by rw [hd, heq]; exact List.mem_cons_self _ _)
      have hall : ∀ d ∈ c :: r, (!(d == ',')) = true := by
        intro d hdm
        simp only [Bool.not_eq_true', beq_eq_false_iff_ne]
        intro heq
        rw [heq] at hdm
        exact hc (by rw [hd]; exact hdm)
      rw [List.length_cons, regexCellsF]
      simp only [hc1, hc2, Bool.false_eq_true, if_false]
      rw [takeWhile_all hall, dropWhile_all hall]
      have hnil : regexCellsF r.length ([] : List Char) = [] := by
        rw [regexCellsF]
      rw [hnil]
      rw [List.map_cons, List.map_nil]
      have hqcs : ¬ '"' ∈ c :: r := by rw [← hd]; exact hq
      rw [stripQuotes_id hqcs, collapseDoubles_id hqcs]
      rw [← hd, string_mk_data]

theorem escape_quoting_iff (s : String) :
    (escapeValue (JValue.str s)).data.head? = some '"' ↔
      (s.data.contains ',' || s.data.contains '\n' || s.data.contains '"') = true := by
  by_cases hcond : (s.data.contains ',' || s.data.contains '\n' || s.data.contains '"') = true
  · simp only [escapeValue, hcond, if_true]
    simp [hcond]
  · have hcond2 : (s.data.contains ',' || s.data.contains '\n' || s.data.contains '"') = false := by
      simp only [Bool.not_eq_true] at hcond
      exact hcond
    simp only [escapeValue, hcond2, Bool.false_eq_true, if_false, iff_false]
    intro hh
    have hmem : '"' ∈ s.data := by
      cases hs : s.data with
      | nil => rw [hs] at hh; simp at hh
      | cons c r =>
        rw [hs] at hh
        simp only [List.head?_cons, Option.some.injEq] at hh
        rw [hh]
        exact List.mem_cons_self _ _
    simp [hmem] at hcond2

/-! ## Sorting: permutation facts and the tabular fallback -/

theorem insSorted_perm (s : String) :
    ∀ l : List String, List.Perm (insSorted s l) (s :: l)
  | [] => List.Perm.refl _
  | t :: ts => by
    rw [insSorted]
    by_cases h : strLeB s t = true
    · rw [if_pos h]
    · rw [if_neg h]
      exact List.Perm.trans (List.Perm.cons t (insSorted_perm s ts)) (List.Perm.swap s t ts)

theorem sortStrings_perm : ∀ l : List String, List.Perm (sortStrings l) l
  | [] => List.Perm.refl _
  | s :: ss => by
    rw [sortStrings]
    exact List.Perm.trans (insSorted_perm s (sortStrings ss))
      (List.Perm.cons s (sortStrings_perm ss))

theorem mem_sortStrings {k : String} {l : List String} : k ∈ sortStrings l ↔ k ∈ l :=
  (sortStrings_perm l).mem_iff

theorem any_sortStrings (l : List String) (p : String → Bool) :
    (sortStrings l).any p = l.any p := by
  by_cases h : l.any p = true
  · rw [h, List.any_eq_true]
    rw [List.any_eq_true] at h
    obtain ⟨x, hx, hp⟩ := h
    exact ⟨x, mem_sortStrings.mpr hx, hp⟩
  · have h2 : l.any p = false := by simpa using h
    rw [h2]
    rw [Bool.eq_false_iff]
    intro hs
    rw [List.any_eq_true] at hs
    obtain ⟨x, hx, hp⟩ := hs
    rw [Bool.eq_false_iff] at h2
    exact h2 (List.any_eq_true.mpr ⟨x, mem_sortStrings.mp hx, hp⟩)

theorem any_congr_fn {α : Type} (l : List α) (f g : α → Bool)
    (h : ∀ x, f x = g x) : l.any f = l.any g := by
  have : f = g := funext h
  rw [this]

theorem isUniformArray_cons (a : JValue) (rest : List JValue)
    (hobj : (a :: rest).all isPlainObjB = true)
    (hkeys : (a :: rest).all
      (fun it => sortStrings (jsObjKeys it) == sortStrings (jsObjKeys a)) = true) :
    isUniformArray (a :: rest) = true := by
  unfold isUniformArray
  rw [hobj]
  simp only [Bool.true_and]
  rw [List.all_eq_true] at hkeys ⊢
  intro it hit
  have h := hkeys it hit
  simp only [beq_iff_eq] at h ⊢
  rw [h]

theorem uniform_complex_fallback (fuel : Nat) (key : String) (arr : List JValue)
    (indent : Nat) (o : ToonOptions)
    (hne : arr ≠ [])
    (hobj : arr.all isPlainObjB = true)
    (hkeys : arr.all (fun it =>
      sortStrings (jsObjKeys it) == sortStrings (jsObjKeys (arr.headD JValue.null))) = true)
    (hcomplex : arr.any (fun it =>
      (jsObjKeys (arr.headD JValue.null)).any (fun k => isComplexB (jsGet it k))) = true) :
    convertArray (fuel + 2) key arr indent o = convertNonUniformArray fuel key arr indent o := by
  rcases arr with _ | ⟨a, rest⟩
  · exact absurd rfl hne
  have hhead : (a :: rest).headD JValue.null = a := rfl
  rw [hhead] at hkeys hcomplex
  unfold convertArray
  rw [show fuel + 2 = (fuel + 1) + 1 from rfl, encodeRun]
  rw [if_neg (by simp : ¬(a :: rest).isEmpty = true)]
  rw [if_pos (isUniformArray_cons a rest hobj hkeys)]
  rw [encodeRun]
  dsimp only
  rw [hhead]
  by_cases hsort : o.sortKeys = true
  · rw [hsort]
    simp only [if_true]
    have htrans : (a :: rest).any
        (fun item => (sortStrings (jsObjKeys a)).any (fun k => isComplexB (jsGet item k))) = true := by
      rw [any_congr_fn _ _
        (fun item => (jsObjKeys a).any (fun k => isComplexB (jsGet item k)))
        (fun item => any_sortStrings _ _)]
      exact hcomplex
    rw [if_pos htrans]
    rfl
  · rw [Bool.not_eq_true] at hsort
    rw [hsort]
    simp only [Bool.false_eq_true, if_false]
    rw [if_pos hcomplex]
    rfl

theorem convertArray_empty (fuel : Nat) (key : String) (indent : Nat) (o : ToonOptions) :
    convertArray (fuel + 1) key [] indent o = key ++ "[0]\x7b\x7d:" := by
  unfold convertArray
  rw [encodeRun]
  simp


theorem parseObject_skip_all (lines : List (List Char))
    (h : ∀ l ∈ lines, lineUnmatched l = true) :
    ∀ fuel idx acc, lines.length ≤ fuel + idx →
      (parseObject lines fuel 0 idx acc).1 = acc := by
  intro fuel
  induction fuel with
  | zero => intro idx acc hb; rw [parseObject]
  | succ fuel ih =>
    intro idx acc hb
    rw [parseObject]
    cases hg : lines.get? idx with
    | none => rfl
    | some line =>
      dsimp only
      have hmem : line ∈ lines := List.get?_mem hg
      have hidx : idx < lines.length := List.get?_eq_some.mp hg |>.choose
      by_cases hblank : (trimChars line).isEmpty = true
      · rw [if_pos hblank]
        exact ih (idx + 1) acc (by omega)
      · rw [if_neg hblank]
        rw [if_neg (Nat.not_lt_zero (leadingSpaces line))]
        have hu := h line hmem
        simp only [lineUnmatched, Bool.and_eq_true, Option.isNone_iff_eq_none] at hu
        obtain ⟨⟨⟨ht, ha⟩, hn⟩, hk⟩ := hu
        rw [ht, ha, hn, hk]
        exact ih (idx + 1) acc (by omega)

theorem toonToJson_unmatched (t : String) (h : allLinesUnmatched t = true) :
    toonToJson t = JValue.obj [] := by
  unfold toonToJson
  dsimp only
  congr 1
  apply parseObject_skip_all
  · intro l hl
    rw [allLinesUnmatched, List.all_eq_true] at h
    exact h l hl
  · have h1 : ((toonLines t).length + 2) * 1 ≤
        ((toonLines t).length + 2) * ((toonLines t).length + 2) :=
      Nat.mul_le_mul_left _ (by omega)
    omega

theorem toonToJson_isObj (t : String) : ∃ fs, toonToJson t = JValue.obj fs :=
  ⟨_, rfl⟩

/-- Claim C1: the Value `{"users":[{"id":1,"name":"Alice","role":"admin"},
{"id":2,"name":"Bob","role":"user"}]}` encodes, under default options, to
exactly `users[2]{id,name,role}:\n  1,Alice,admin\n  2,Bob,user`, and
decoding that exact text returns the equivalent Value in which the two `id`
values are the numbers 1 and 2 (not the strings "1" and "2"). -/
theorem c1_concrete_scenario :
    jsonToToon (JValue.obj [("users", JValue.arr [
        JValue.obj [("id", JValue.num 1), ("name", JValue.str "Alice"), ("role", JValue.str "admin")],
        JValue.obj [("id", JValue.num 2), ("name", JValue.str "Bob"), ("role", JValue.str "user")]])])
      defaultOptions = "users[2]\x7bid,name,role\x7d:\n  1,Alice,admin\n  2,Bob,user" ∧
    toonToJson "users[2]\x7bid,name,role\x7d:\n  1,Alice,admin\n  2,Bob,user" =
      JValue.obj [("users", JValue.arr [
        JValue.obj [("id", JValue.num 1), ("name", JValue.str "Alice"), ("role", JValue.str "admin")],
        JValue.obj [("id", JValue.num 2), ("name", JValue.str "Bob"), ("role", JValue.str "user")]])] :=
  ⟨rfl, rfl⟩

/-- Claim C2, counterexample: the scalar round trip fails as universally
stated.  The string value `"null"` stringifies to the bare text `null`,
which the key-value scalar parser maps back to the Null value, not to the
original string. -/
theorem c2_counterexample :
    coerceScalar (escapeValue (JValue.str "null")) = JValue.null ∧
    coerceScalar (escapeValue (JValue.str "null")) ≠ JValue.str "null" :=
  ⟨rfl, fun h => JValue.noConfusion h⟩

/-- Claim C2, amended: `parseScalar(stringify(v)) = v` holds for Null,
booleans, integral numbers, and exactly those strings whose text is not one
of the literals `null`/`true`/`false`, is not coerced to a number by the
parser's `Number` guard, and contains no comma, double quote or newline
(quoted forms are not unquoted by the key-value branch). -/
theorem c2_scalar_roundtrip_amended (v : JValue) (h : scalarRoundTrippable v = true) :
    coerceScalar (escapeValue v) = v :=
  scalar_codec_roundtrip v h

theorem c2_scalar_roundtrip_amended_witness :
    scalarRoundTrippable (JValue.str "hello world") = true ∧
    coerceScalar (escapeValue (JValue.str "hello world")) = JValue.str "hello world" :=
  ⟨rfl, c2_scalar_roundtrip_amended (JValue.str "hello world") rfl⟩

/-- Claim C3, counterexample: decoding does not reverse the quoting.  The
key-value line `k: "a,b"` decodes to the string `"a,b"` with the quotes
retained verbatim, not to `a,b` with the quote pair stripped. -/
theorem c3_counterexample :
    toonToJson "k: \"a,b\"" = JValue.obj [("k", JValue.str "\"a,b\"")] ∧
    JValue.str "\"a,b\"" ≠ JValue.str "a,b" := by
  refine ⟨rfl, ?_⟩
  intro h
  injection h with h2
  exact absurd h2 (by decide)

/-- Claim C3, amended: the encoder wraps a string in double quotes exactly
when it contains a comma, a newline or a double quote (first conjunct), and
the decoder's tabular cell scanner reverses the transformation exactly for
nonempty strings containing no double quote and no newline (second
conjunct); the key-value branch never unquotes, and quoted cells containing
doubled quotes are split into several cells rather than restored. -/
theorem c3_escaping_amended (s : String) :
    ((escapeValue (JValue.str s)).data.head? = some '"' ↔
      (s.data.contains ',' || s.data.contains '\n' || s.data.contains '"') = true) ∧
    (¬ '"' ∈ s.data → ¬ '\n' ∈ s.data → s.data ≠ [] →
      cellSplit (escapeValue (JValue.str s)) = [s]) :=
  ⟨escape_quoting_iff s, fun hq hn hne => cellSplit_escape s hq hn hne⟩

theorem c3_escaping_amended_witness :
    (¬ '"' ∈ "a,b".data ∧ ¬ '\n' ∈ "a,b".data ∧ "a,b".data ≠ []) ∧
    cellSplit (escapeValue (JValue.str "a,b")) = ["a,b"] :=
  ⟨⟨by decide, by decide, by decide⟩,
   (c3_escaping_amended "a,b").2 (by decide) (by decide) (by decide)⟩

/-- Claim C4, counterexample: a tabular header with the non-numeric count
`x` does not make `toonToJson` fail; the header line and its row are
silently skipped and a plain (here empty) object is returned.  No
`MalformedInput` failure exists in the decoder. -/
theorem c4_counterexample :
    toonToJson "users[x]\x7ba\x7d:\n  1,2" = JValue.obj [] :=
  rfl

/-- Claim C4, amended: a structural header line violating the grammar is
skipped exactly like any other unrecognized line, decoding continues with
the remaining lines, and the (possibly partial) object built from them is
returned; the decoder never raises and reports no line information. -/
theorem c4_malformed_header_skipped :
    toonToJson "a: 1\nusers[x]\x7ba\x7d:\nb: 2" =
      JValue.obj [("a", JValue.num 1), ("b", JValue.num 2)] ∧
    toonToJson "users[x]\x7ba\x7d:" = JValue.obj [] :=
  ⟨rfl, rfl⟩

/-- Claim C5, counterexample: decoding `mixed[4]:` with the element lines
`1`, `string`, `true`, `null` does not produce
`[Number 1, String "string", Bool true, Null]`: the generic-array branch
applies no number or boolean coercion. -/
theorem c5_counterexample :
    toonToJson "mixed[4]:\n  1\n  string\n  true\n  null" ≠
      JValue.obj [("mixed", JValue.arr
        [JValue.num 1, JValue.str "string", JValue.bool true, JValue.null])] := by
  intro h
  rw [show toonToJson "mixed[4]:\n  1\n  string\n  true\n  null" =
    JValue.obj [("mixed", JValue.arr
      [JValue.str "1", JValue.str "string", JValue.str "true", JValue.null])] from rfl] at h
  injection h with h2
  injection h2 with h3 h4
  injection h3 with h5 h6
  injection h6 with h7
  injection h7 with h8 h9
  exact JValue.noConfusion h8

/-- Claim C5, amended: in the generic-array branch only the literal `null`
is special-cased; every other scalar element line is kept as its raw trimmed
text, so the example decodes to
`[String "1", String "string", String "true", Null]`.  (The repository's own
test expects `Bool true` for the third element and disagrees with the
source here.) -/
theorem c5_generic_scalars_verbatim :
    toonToJson "mixed[4]:\n  1\n  string\n  true\n  null" =
      JValue.obj [("mixed", JValue.arr
        [JValue.str "1", JValue.str "string", JValue.str "true", JValue.null])] :=
  rfl

/-- Claim C6: an array that is nonempty, all of whose elements are objects
with identical (sorted) key sets, but in which some element holds an object
or array value at some shared key, is not rendered tabularly: `convertArray`
produces exactly the generic rendering `convertNonUniformArray`, whose
header `key[N]:` has no `{...}` column list. -/
theorem c6_complex_uniform_not_tabular (fuel : Nat) (key : String) (arr : List JValue)
    (indent : Nat) (o : ToonOptions)
    (hne : arr ≠ [])
    (hobj : arr.all isPlainObjB = true)
    (hkeys : arr.all (fun it =>
      sortStrings (jsObjKeys it) == sortStrings (jsObjKeys (arr.headD JValue.null))) = true)
    (hcomplex : arr.any (fun it =>
      (jsObjKeys (arr.headD JValue.null)).any (fun k => isComplexB (jsGet it k))) = true) :
    convertArray (fuel + 2) key arr indent o = convertNonUniformArray fuel key arr indent o :=
  uniform_complex_fallback fuel key arr indent o hne hobj hkeys hcomplex

theorem c6_complex_uniform_not_tabular_witness :
    (([JValue.obj [("a", JValue.num 1), ("b", JValue.obj [("c", JValue.num 3)])],
       JValue.obj [("a", JValue.num 2), ("b", JValue.obj [("c", JValue.num 4)])]] : List JValue) ≠ [] ∧
     ([JValue.obj [("a", JValue.num 1), ("b", JValue.obj [("c", JValue.num 3)])],
       JValue.obj [("a", JValue.num 2), ("b", JValue.obj [("c", JValue.num 4)])]] : List JValue).all
        isPlainObjB = true) ∧
    convertArray 10 "items"
      [JValue.obj [("a", JValue.num 1), ("b", JValue.obj [("c", JValue.num 3)])],
       JValue.obj [("a", JValue.num 2), ("b", JValue.obj [("c", JValue.num 4)])]] 2 defaultOptions =
    convertNonUniformArray 8 "items"
      [JValue.obj [("a", JValue.num 1), ("b", JValue.obj [("c", JValue.num 3)])],
       JValue.obj [("a", JValue.num 2), ("b", JValue.obj [("c", JValue.num 4)])]] 2 defaultOptions :=
  ⟨⟨by intro h; injection h, rfl⟩,
   c6_complex_uniform_not_tabular 8 "items" _ 2 defaultOptions
     (by intro h; injection h) rfl rfl rfl⟩

/-- Claim C7: an empty array under key `k` is rendered, for every fuel and
every choice of options, as the single line `k[0]{}:` with no body; in
particular encoding `{ "items": [] }` with default options yields exactly
`items[0]{}:`. -/
theorem c7_empty_array_convention :
    (∀ (fuel : Nat) (key : String) (indent : Nat) (o : ToonOptions),
      convertArray (fuel + 1) key [] indent o = key ++ "[0]\x7b\x7d:") ∧
    jsonToToon (JValue.obj [("items", JValue.arr [])]) defaultOptions = "items[0]\x7b\x7d:" :=
  ⟨convertArray_empty, rfl⟩

/-- Claim C8: for every text, `estimateTokenCount` equals
`ceil(n/4) + ceil(0.3*s)` where `n` is the length after collapsing each
whitespace run to one space and `s` is the count of structural characters
in the original text — here stated with the ceilings computed exactly as
`(n+3)/4` and `(3*s+9)/10`.  Determinism is immediate: the model is a pure
function of the text. -/
theorem c8_estimate_tokens_exact (s : String) :
    estimateTokenCount s =
      ((normalizeWs s.data).length + 3) / 4 +
      (3 * (s.data.filter isStructuralB).length + 9) / 10 :=
  estimateTokenCount_formula s

/-- Claim C9 (code bug): when `jsonTokenCount` is 0 (e.g. both inputs
empty), `calculateStats` does not return 0% as the claim and the
specification require; the unguarded division yields NaN/±Infinity,
modelled here as `none`, which is in particular not `some 0`. -/
theorem c9_percentage_saved_div_zero :
    (calculateStats "" "").percentageSaved = none ∧
    (calculateStats "" "").percentageSaved ≠ some 0 := by
  have h0 : estimateTokenCount "" = 0 := by
    rw [estimateTokenCount_formula]
    rfl
  have hps : (calculateStats "" "").percentageSaved = none := by
    unfold calculateStats
    dsimp only
    rw [h0]
    rfl
  exact ⟨hps, by rw [hps]; intro h; exact Option.noConfusion h⟩

/-- Claim C10: `toonToJson` returns a plain object on every input — never
an array, scalar or null; on text none of whose lines matches any grammar
pattern (including the empty and whitespace-only texts and a bare scalar
line) it returns the empty object without error; and the encoder output for
a top-level array (`root[...]` header) decodes back to an object holding the
`root` key, never to the original array. -/
theorem c10_decoder_always_object :
    (∀ t : String, ∃ fs, toonToJson t = JValue.obj fs) ∧
    (∀ t : String, allLinesUnmatched t = true → toonToJson t = JValue.obj []) ∧
    toonToJson "" = JValue.obj [] ∧
    toonToJson " \n  " = JValue.obj [] ∧
    toonToJson "true" = JValue.obj [] ∧
    toonToJson (jsonToToon (JValue.arr [JValue.num 1, JValue.num 2]) defaultOptions) =
      JValue.obj [("root", JValue.arr [JValue.str "1", JValue.str "2"])] :=
  ⟨toonToJson_isObj, toonToJson_unmatched, rfl, rfl, rfl, rfl⟩

theorem c10_decoder_always_object_witness :
    allLinesUnmatched "abc def" = true ∧ toonToJson "abc def" = JValue.obj [] :=
  ⟨rfl, c10_decoder_always_object.2.1 "abc def" rfl⟩
